import Mathlib

/-!
Verification development for the Scoped Highlight Rule Engine
(`src/extension.ts`).  The TypeScript source is shallowly embedded:
pure functions become Lean functions, the per-rule scan-scheduler state
(`pendingScopeScans` map membership, `pendingScopeRescanRuleIds` set
membership) becomes an explicit two-boolean state record, JavaScript
`Map` objects become association lists with distinct keys, and
JavaScript strings become Lean `String` / `List Char` with
`localeCompare` embedded as code-unit lexicographic comparison.
-/

/-- Embeds the TypeScript union type `RuleScope`. -/
inductive RuleScope
  | document
  | folder
  | folderRecursive
deriving DecidableEq, Repr

/-- Embeds the TypeScript union type `NavigationDirection`. -/
inductive NavigationDirection
  | next
  | previous
deriving DecidableEq, Repr

/-- Embeds the TypeScript union type `RuleOptionKey`. -/
inductive RuleOptionKey
  | matchCase
  | matchWholeWord
  | useRegex
deriving DecidableEq, Repr

/-!
## Scan scheduler (`scheduleScopeScan`, lines 890-910)

Per rule id, `scanInFlight` embeds membership of the rule id in
`pendingScopeScans` and `rescanQueued` embeds membership in
`pendingScopeRescanRuleIds`.  Both are booleans because a `Map` /
`Set` holds at most one entry per key, which is exactly the
bounded-queue encoding of the source.
-/

/-- Per-rule scheduler state: `scanInFlight` is membership of the rule
id in `this.pendingScopeScans`, `rescanQueued` is membership in
`this.pendingScopeRescanRuleIds`. -/
structure SchedState where
  scanInFlight : Bool
  rescanQueued : Bool
deriving DecidableEq, Repr

/-- Embeds `scheduleScopeScan` (extension.ts lines 890-910): returns the
new scheduler state and whether a scan was started by this call.
Document scope returns immediately; if a scan is in flight the rescan
flag is set; otherwise a scan starts and is recorded in flight. -/
def scheduleScopeScan (scope : RuleScope) (s : SchedState) : SchedState × Bool :=
  if scope = RuleScope.document then (s, false)
  else if s.scanInFlight then (⟨true, true⟩, false)
  else (⟨true, s.rescanQueued⟩, true)

/-- Embeds the `.finally` completion handler inside `scheduleScopeScan`:
the rule id is removed from `pendingScopeScans`, and if the rescan flag
was present it is cleared and `scheduleScopeScan` is invoked again.
Returns the new state and whether a trailing scan was started. -/
def onScanComplete (scope : RuleScope) (s : SchedState) : SchedState × Bool :=
  if s.rescanQueued then scheduleScopeScan scope ⟨false, false⟩
  else (⟨false, s.rescanQueued⟩, false)

/-- Events observable by the per-rule scheduler: a `scheduleScopeScan`
call, or the asynchronous completion of the in-flight scan. -/
inductive SchedEvent
  | schedule
  | complete
deriving DecidableEq, Repr

/-- One scheduler step.  Returns the new state, the number of scans
started by the event, and the number of scans completed by the event.
A completion event only has an effect while a scan is in flight. -/
def schedStep (scope : RuleScope) (s : SchedState) : SchedEvent → SchedState × Nat × Nat
  | SchedEvent.schedule =>
      let r := scheduleScopeScan scope s
      (r.1, if r.2 then 1 else 0, 0)
  | SchedEvent.complete =>
      if s.scanInFlight then
        let r := onScanComplete scope s
        (r.1, if r.2 then 1 else 0, 1)
      else (s, 0, 0)

/-- Runs the scheduler over a list of events, accumulating the total
number of scans started and completed. -/
def runSched (scope : RuleScope) (s : SchedState) : List SchedEvent → SchedState × Nat × Nat
  | [] => (s, 0, 0)
  | e :: es =>
      let r := schedStep scope s e
      let rest := runSched scope r.1 es
      (rest.1, r.2.1 + rest.2.1, r.2.2 + rest.2.2)

theorem runSched_balance (scope : RuleScope) (s : SchedState) (events : List SchedEvent) :
    (runSched scope s events).2.1 + (if s.scanInFlight then 1 else 0) =
      (runSched scope s events).2.2 + (if (runSched scope s events).1.scanInFlight then 1 else 0) := by
  induction events generalizing s with
  | nil => simp [runSched]
  | cons e es ih =>
      obtain ⟨fl, q⟩ := s
      have h1 := ih ⟨true, false⟩
      have h2 := ih ⟨true, true⟩
      have h3 := ih ⟨false, false⟩
      have h4 := ih ⟨false, true⟩
      by_cases hd : scope = RuleScope.document <;>
        cases e <;> cases fl <;> cases q <;>
          simp [runSched, schedStep, scheduleScopeScan, onScanComplete, hd] at h1 h2 h3 h4 ⊢ <;>
          omega

theorem runSched_schedule_saturated (scope : RuleScope) (hscope : scope ≠ RuleScope.document)
    (n : Nat) :
    runSched scope ⟨true, true⟩ (List.replicate n SchedEvent.schedule ++ [SchedEvent.complete]) =
      (⟨true, false⟩, 1, 1) := by
  induction n with
  | zero =>
      simp [runSched, schedStep, onScanComplete, scheduleScopeScan, hscope]
  | succ n ih =>
      simpa [List.replicate_succ, runSched, schedStep, scheduleScopeScan, hscope] using ih

/-- C1: the scan scheduler maintains the coalescing policy.
(1) `scheduleScopeScan` is a no-op for document scope and starts no
scan.  (2) Along any event trace from the idle state, the number of
scans started never exceeds the number completed plus one — at most one
scan is in flight at any time (and at most one rescan is queued, since
the queue is the single boolean `rescanQueued`).  (3) Calling
`scheduleScopeScan` any number `n ≥ 1` of times while a scan is in
flight starts nothing, and the subsequent completion starts exactly one
trailing rescan, leaving one scan in flight and an empty queue. -/
theorem scheduleScopeScan_coalescing (scope : RuleScope)
    (hscope : scope ≠ RuleScope.document) (n : Nat) (hn : 1 ≤ n) :
    (∀ s : SchedState, scheduleScopeScan RuleScope.document s = (s, false))
    ∧ (∀ events : List SchedEvent,
        (runSched scope ⟨false, false⟩ events).2.1 ≤
          (runSched scope ⟨false, false⟩ events).2.2 + 1)
    ∧ runSched scope ⟨true, false⟩
        (List.replicate n SchedEvent.schedule ++ [SchedEvent.complete]) =
        (⟨true, false⟩, 1, 1) := by
  refine ⟨fun s => by simp [scheduleScopeScan], fun events => ?_, ?_⟩
  · have h := runSched_balance scope ⟨false, false⟩ events
    simp only [if_pos, if_neg] at h
    by_cases hfl : (runSched scope ⟨false, false⟩ events).1.scanInFlight <;>
      simp [hfl] at h <;> omega
  · obtain ⟨m, rfl⟩ : ∃ m, n = m + 1 := ⟨n - 1, by omega⟩
    have h := runSched_schedule_saturated scope hscope m
    simpa [List.replicate_succ, runSched, schedStep, scheduleScopeScan, hscope] using h

/-- Witness for C1 at scope `folder` and `n = 1`. -/
theorem scheduleScopeScan_coalescing_witness :
    runSched RuleScope.folder ⟨true, false⟩
        (List.replicate 1 SchedEvent.schedule ++ [SchedEvent.complete]) =
      (⟨true, false⟩, 1, 1) :=
  (scheduleScopeScan_coalescing RuleScope.folder (by decide) 1 (by decide)).2.2

/-!
## Navigation index data (`DocumentRuleStats`, `getOrderedMatches`,
`compareRanges`, lines 1023-1068)

JavaScript `Map<string, DocumentRuleStats>` is embedded as an
association list with (by the `Map` invariant) pairwise-distinct keys.
`uriA.localeCompare(uriB)` is embedded as code-unit lexicographic
comparison of the strings, i.e. the lexicographic linear order on
`List Char`.  `Array.prototype.sort` is embedded as `List.insertionSort`
(both produce a sorted stable permutation).
-/

/-- Embeds `vscode.Position`: a zero-based line and character pair. -/
structure VsPos where
  line : Nat
  character : Nat
deriving DecidableEq, Repr

/-- Embeds `vscode.Range`.  The source field `end` is a Lean keyword and
is embedded as `stop`. -/
structure VsRange where
  start : VsPos
  stop : VsPos
deriving DecidableEq, Repr

/-- Embeds `DocumentRuleStats` (extension.ts lines 36-40). -/
structure DocStats where
  matchCount : Nat
  currentMatchIndex : Option Nat
  ranges : List VsRange
deriving DecidableEq, Repr

/-- Embeds `statsByDocument : Map<string, DocumentRuleStats>` as an
association list. -/
abbrev StatsMap := List (String × DocStats)

/-- Embeds the comparator `([uriA], [uriB]) => uriA.localeCompare(uriB)`
used to sort document entries: `localeCompare` is embedded as code-unit
lexicographic string comparison. -/
def entryLe (e1 e2 : String × DocStats) : Prop :=
  e1.1.data ≤ e2.1.data

instance : DecidableRel entryLe :=
  fun e1 e2 => inferInstanceAs (Decidable (e1.1.data ≤ e2.1.data))

instance : IsTotal (String × DocStats) entryLe :=
  ⟨fun a b => le_total a.1.data b.1.data⟩

instance : IsTrans (String × DocStats) entryLe :=
  ⟨fun _ _ _ h1 h2 => le_trans h1 h2⟩

/-- Embeds `compareRanges` (extension.ts lines 1057-1068): the numeric
comparator over start line, start character, end line, end character. -/
def compareRanges (a b : VsRange) : Int :=
  if a.start.line ≠ b.start.line then (a.start.line : Int) - b.start.line
  else if a.start.character ≠ b.start.character then
    (a.start.character : Int) - b.start.character
  else if a.stop.line ≠ b.stop.line then (a.stop.line : Int) - b.stop.line
  else (a.stop.character : Int) - b.stop.character

/-- The sort relation induced by the comparator `compareRanges`:
`a` sorts no later than `b` when the comparator is nonpositive. -/
def rangeLe (a b : VsRange) : Prop := compareRanges a b ≤ 0

instance : DecidableRel rangeLe :=
  fun a b => inferInstanceAs (Decidable (compareRanges a b ≤ 0))

theorem compareRanges_le_iff (a b : VsRange) :
    compareRanges a b ≤ 0 ↔
      (a.start.line < b.start.line ∨
        (a.start.line = b.start.line ∧
          (a.start.character < b.start.character ∨
            (a.start.character = b.start.character ∧
              (a.stop.line < b.stop.line ∨
                (a.stop.line = b.stop.line ∧
                  a.stop.character ≤ b.stop.character)))))) := by
  unfold compareRanges
  split_ifs <;> omega

instance : IsTotal VsRange rangeLe :=
  ⟨fun a b => by
    unfold rangeLe
    rw [compareRanges_le_iff, compareRanges_le_iff]
    omega⟩

instance : IsTrans VsRange rangeLe :=
  ⟨fun a b c h1 h2 => by
    unfold rangeLe at h1 h2 ⊢
    rw [compareRanges_le_iff] at h1 h2 ⊢
    omega⟩

/-- Embeds `getOrderedMatches` (extension.ts lines 1023-1035): sorts the
per-document entries by location string, sorts each document's ranges by
`compareRanges`, and concatenates the `(uri, range)` pairs. -/
def getOrderedMatches (stats : StatsMap) : List (String × VsRange) :=
  (List.insertionSort entryLe stats).flatMap
    (fun e => (List.insertionSort rangeLe e.2.ranges).map (fun r => (e.1, r)))

/-- Strict lexicographic order on positions: the order of
`vscode.Position` values. -/
def posLt (p q : VsPos) : Prop :=
  p.line < q.line ∨ (p.line = q.line ∧ p.character < q.character)

/-- Nonstrict position order. -/
def posLe (p q : VsPos) : Prop := posLt p q ∨ p = q

/-- The ordering claimed for the global match list: first by document
location string (code-unit lexicographic), then by match start
position, then by match end position. -/
def matchLe (m1 m2 : String × VsRange) : Prop :=
  m1.1.data < m2.1.data ∨
    (m1.1 = m2.1 ∧
      (posLt m1.2.start m2.2.start ∨
        (m1.2.start = m2.2.start ∧ posLe m1.2.stop m2.2.stop)))

theorem rangeLe_imp_claim (a b : VsRange) (h : rangeLe a b) :
    posLt a.start b.start ∨ (a.start = b.start ∧ posLe a.stop b.stop) := by
  unfold rangeLe at h
  rw [compareRanges_le_iff] at h
  obtain ⟨⟨al, ac⟩, ⟨sl, sc⟩⟩ := a
  obtain ⟨⟨bl, bc⟩, ⟨tl, tc⟩⟩ := b
  simp only [posLt, posLe, VsPos.mk.injEq] at h ⊢
  omega

theorem stringData_inj {a b : String} (h : a.data = b.data) : a = b :=
  congrArg String.mk h

theorem sortedEntries_strictKeys (stats : StatsMap)
    (hnd : (stats.map Prod.fst).Nodup) :
    List.Pairwise (fun a b : String × DocStats => a.1.data < b.1.data)
      (List.insertionSort entryLe stats) := by
  have hsorted : List.Pairwise entryLe (List.insertionSort entryLe stats) :=
    List.sorted_insertionSort entryLe stats
  have hperm : (List.insertionSort entryLe stats).Perm stats :=
    List.perm_insertionSort entryLe stats
  have hnd2 : ((List.insertionSort entryLe stats).map Prod.fst).Nodup :=
    ((hperm.map Prod.fst).nodup_iff).mpr hnd
  have hne : List.Pairwise (fun a b : String × DocStats => a.1 ≠ b.1)
      (List.insertionSort entryLe stats) := List.pairwise_map.mp hnd2
  exact (hsorted.and hne).imp
    (fun h => lt_of_le_of_ne h.1 (fun hdata => h.2 (stringData_inj hdata)))

/-- C2: `getOrderedMatches` is deterministic (the same list on repeated
calls absent mutation — it is a pure function of the statistics map)
and, whenever the statistics map has distinct document keys (the `Map`
invariant), the returned list is sorted first by document location
string in lexicographic order, then by match start position, then by
match end position. -/
theorem getOrderedMatches_sorted (stats : StatsMap)
    (hnd : (stats.map Prod.fst).Nodup) :
    getOrderedMatches stats = getOrderedMatches stats ∧
      List.Pairwise matchLe (getOrderedMatches stats) := by
  refine ⟨rfl, ?_⟩
  have hflat : getOrderedMatches stats =
      ((List.insertionSort entryLe stats).map
        (fun e => (List.insertionSort rangeLe e.2.ranges).map
          (fun r => (e.1, r)))).flatten := rfl
  rw [hflat]
  rw [List.pairwise_flatten]
  constructor
  · intro l hl
    rw [List.mem_map] at hl
    obtain ⟨e, _, rfl⟩ := hl
    rw [List.pairwise_map]
    have hr : List.Pairwise rangeLe (List.insertionSort rangeLe e.2.ranges) :=
      List.sorted_insertionSort rangeLe e.2.ranges
    exact hr.imp (fun h => Or.inr ⟨rfl, rangeLe_imp_claim _ _ h⟩)
  · rw [List.pairwise_map]
    refine (sortedEntries_strictKeys stats hnd).imp ?_
    intro a b hab x hx y hy
    rw [List.mem_map] at hx hy
    obtain ⟨rx, _, rfl⟩ := hx
    obtain ⟨ry, _, rfl⟩ := hy
    exact Or.inl hab

/-- Witness for C2 on a concrete two-document statistics map. -/
theorem getOrderedMatches_sorted_witness :
    List.Pairwise matchLe
      (getOrderedMatches
        [("b", ⟨1, none, [⟨⟨0, 4⟩, ⟨0, 7⟩⟩]⟩),
         ("a", ⟨2, none, [⟨⟨1, 0⟩, ⟨1, 3⟩⟩, ⟨⟨0, 2⟩, ⟨0, 5⟩⟩]⟩)]) :=
  (getOrderedMatches_sorted
    [("b", ⟨1, none, [⟨⟨0, 4⟩, ⟨0, 7⟩⟩]⟩),
     ("a", ⟨2, none, [⟨⟨1, 0⟩, ⟨1, 3⟩⟩, ⟨⟨0, 2⟩, ⟨0, 5⟩⟩]⟩)]
    (by decide)).2

/-!
## Global match index (`computeGlobalMatchIndex`, lines 1037-1055)
-/

/-- The loop inside `computeGlobalMatchIndex`: walks the sorted entries
accumulating the offset, returning `offset + localIndex` at the entry
whose key equals `uri` (or `none` when the local index exceeds that
document's match count, or when `uri` is never found). -/
def computeGlobalAux (uri : String) (localIndex : Nat) :
    List (String × DocStats) → Nat → Option Nat
  | [], _ => none
  | e :: rest, offset =>
      if e.1 = uri then
        if localIndex > e.2.matchCount then none else some (offset + localIndex)
      else computeGlobalAux uri localIndex rest (offset + e.2.matchCount)

/-- Embeds `computeGlobalMatchIndex` (extension.ts lines 1037-1055).
The JavaScript guard `!localIndex || localIndex <= 0` rejects `null`
and `0` (`localIndex` is a 1-based count, so nonpositive means `0`). -/
def computeGlobalMatchIndex (stats : StatsMap) (uri : String)
    (localIndex : Option Nat) : Option Nat :=
  match localIndex with
  | none => none
  | some l =>
      if l = 0 then none
      else computeGlobalAux uri l (List.insertionSort entryLe stats) 0

theorem computeGlobalAux_not_found (uri : String) (l : Nat)
    (entries : List (String × DocStats)) (offset : Nat)
    (habs : ∀ st, (uri, st) ∉ entries) :
    computeGlobalAux uri l entries offset = none := by
  induction entries generalizing offset with
  | nil => rfl
  | cons e rest ih =>
      obtain ⟨eu, est⟩ := e
      have hne : eu ≠ uri := by
        intro h
        exact habs est (by simp [h])
      simp only [computeGlobalAux, if_neg hne]
      exact ih _ (fun st hst => habs st (List.mem_cons_of_mem _ hst))

theorem computeGlobalAux_found (uri : String) (st : DocStats) (l : Nat)
    (entries : List (String × DocStats)) (offset : Nat)
    (hp : List.Pairwise (fun a b : String × DocStats => a.1.data < b.1.data) entries)
    (hmem : (uri, st) ∈ entries) :
    computeGlobalAux uri l entries offset =
      if l ≤ st.matchCount then
        some (offset +
          ((entries.filter (fun e => decide (e.1.data < uri.data))).map
            (fun e => e.2.matchCount)).sum + l)
      else none := by
  induction entries generalizing offset with
  | nil => simp at hmem
  | cons e rest ih =>
      obtain ⟨eu, est⟩ := e
      rcases List.pairwise_cons.mp hp with ⟨hhead, htail⟩
      by_cases heq : eu = uri
      · subst heq
        have hst : st = est := by
          rcases List.mem_cons.mp hmem with h | h
          · exact (Prod.ext_iff.mp h).2
          · exact absurd (hhead _ h) (by simp)
        subst hst
        have hfilter :
            List.filter (fun e => decide (e.1.data < eu.data))
              ((eu, st) :: rest) = [] := by
          rw [List.filter_eq_nil_iff]
          intro x hx
          rcases List.mem_cons.mp hx with h | h
          · subst h
            simp
          · have hx2 := hhead _ h
            simp only [decide_eq_true_eq]
            exact fun hlt => absurd hx2 (not_lt_of_lt hlt)
        by_cases hcount : l ≤ st.matchCount
        · have hng : ¬ (l > st.matchCount) := by omega
          simp [computeGlobalAux, hfilter, hcount, hng]
        · have hg : l > st.matchCount := by omega
          simp [computeGlobalAux, hcount, hg]
      · have hmem2 : (uri, st) ∈ rest := by
          rcases List.mem_cons.mp hmem with h | h
          · exact absurd (congrArg Prod.fst h).symm heq
          · exact h
        have hlt : eu.data < uri.data := hhead _ hmem2
        have hstep : computeGlobalAux uri l ((eu, est) :: rest) offset =
            computeGlobalAux uri l rest (offset + est.matchCount) := by
          simp [computeGlobalAux, heq]
        rw [hstep, ih _ htail hmem2]
        by_cases hcount : l ≤ st.matchCount
        · rw [if_pos hcount, if_pos hcount]
          simp only [List.filter_cons, decide_eq_true_eq]
          rw [if_pos hlt]
          simp only [List.map_cons, List.sum_cons, Option.some.injEq]
          omega
        · rw [if_neg hcount, if_neg hcount]

/-- C10: `computeGlobalMatchIndex` returns the sum of the match counts
of all documents whose URI sorts strictly before the given URI plus the
1-based local index `l`, provided the document has recorded statistics
and `1 ≤ l ≤` that document's match count; it returns `none` when the
local index is absent or zero, when it exceeds the document's match
count, or when the document has no recorded statistics. -/
theorem computeGlobalMatchIndex_spec :
    (∀ (stats : StatsMap) (uri : String),
      computeGlobalMatchIndex stats uri none = none)
    ∧ (∀ (stats : StatsMap) (uri : String),
      computeGlobalMatchIndex stats uri (some 0) = none)
    ∧ (∀ (stats : StatsMap) (uri : String) (l : Nat),
        (∀ st, (uri, st) ∉ stats) →
        computeGlobalMatchIndex stats uri (some l) = none)
    ∧ (∀ (stats : StatsMap) (uri : String) (st : DocStats) (l : Nat),
        (stats.map Prod.fst).Nodup → (uri, st) ∈ stats →
        st.matchCount < l →
        computeGlobalMatchIndex stats uri (some l) = none)
    ∧ (∀ (stats : StatsMap) (uri : String) (st : DocStats) (l : Nat),
        (stats.map Prod.fst).Nodup → (uri, st) ∈ stats →
        1 ≤ l → l ≤ st.matchCount →
        computeGlobalMatchIndex stats uri (some l) =
          some (((stats.filter (fun e => decide (e.1.data < uri.data))).map
            (fun e => e.2.matchCount)).sum + l)) := by
  refine ⟨fun stats uri => rfl, fun stats uri => by simp [computeGlobalMatchIndex], ?_, ?_, ?_⟩
  · intro stats uri l habs
    simp only [computeGlobalMatchIndex]
    by_cases hl : l = 0
    · simp [hl]
    · rw [if_neg hl]
      refine computeGlobalAux_not_found uri l _ 0 (fun st hst => ?_)
      exact habs st ((List.perm_insertionSort entryLe stats).mem_iff.mp hst)
  · intro stats uri st l hnd hmem hcount
    simp only [computeGlobalMatchIndex]
    rw [if_neg (by omega)]
    rw [computeGlobalAux_found uri st l _ 0 (sortedEntries_strictKeys stats hnd)
      ((List.perm_insertionSort entryLe stats).mem_iff.mpr hmem)]
    rw [if_neg (by omega)]
  · intro stats uri st l hnd hmem h1 h2
    simp only [computeGlobalMatchIndex]
    rw [if_neg (by omega)]
    rw [computeGlobalAux_found uri st l _ 0 (sortedEntries_strictKeys stats hnd)
      ((List.perm_insertionSort entryLe stats).mem_iff.mpr hmem)]
    rw [if_pos h2]
    have hperm := ((List.perm_insertionSort entryLe stats).filter
      (fun e => decide (e.1.data < uri.data))).map (fun e => e.2.matchCount)
    rw [hperm.sum_eq]
    simp

/-- Witness for C10 on a concrete two-document statistics map:
document `a` holds 2 matches, document `b` holds 3, so local index 2 in
`b` is global index 4. -/
theorem computeGlobalMatchIndex_spec_witness :
    computeGlobalMatchIndex
        [("a", ⟨2, none, []⟩), ("b", ⟨3, none, []⟩)] "b" (some 2) = some 4 := by
  have h := computeGlobalMatchIndex_spec.2.2.2.2
      [("a", ⟨2, none, []⟩), ("b", ⟨3, none, []⟩)] "b" ⟨3, none, []⟩ 2
      (by decide) (by simp) (by decide) (by decide)
  rw [h]
  decide

/-!
## Navigation (`navigateToMatch`, lines 432-496)

The target-index computation and the state update of `navigateToMatch`
are embedded.  The current-index resolution chain of the source
(selection-derived index in the active editor, then the supplied
document's cached local index, then the rule's cached global index) is
host/selection dependent, so the resolved zero-based current index is
taken as the `currentIndex` input here (`none` when no current index
can be determined).
-/

/-- Association-list lookup, embedding `Map.prototype.get`. -/
def assocGet {α : Type} (m : List (String × α)) (k : String) : Option α :=
  (m.find? (fun e => e.1 == k)).map Prod.snd

/-- Association-list update, embedding `Map.prototype.set`: replaces
the entry in place when the key is present, appends otherwise. -/
def assocSet {α : Type} : List (String × α) → String → α → List (String × α)
  | [], k, v => [(k, v)]
  | e :: rest, k, v => if e.1 = k then (k, v) :: rest else e :: assocSet rest k v

/-- Association-list removal, embedding `Map.prototype.delete`. -/
def assocDelete {α : Type} (m : List (String × α)) (k : String) : List (String × α) :=
  m.filter (fun e => ! (e.1 == k))

/-- The navigation-relevant per-rule state: the per-document statistics
map and the cached 1-based global match index. -/
structure NavState where
  statsByDocument : StatsMap
  globalMatchIndex : Option Nat
deriving DecidableEq, Repr

/-- Observable outcome of `navigateToMatch`: the "no matches" message,
or navigation to a target location. -/
inductive NavOutcome
  | noMatches
  | navigated (uri : String) (range : VsRange)
deriving DecidableEq, Repr

/-- Embeds `getLocalIndexForMatch` (extension.ts lines 1070-1077). -/
def getLocalIndexForMatch (stats : StatsMap) (uri : String) (range : VsRange) :
    Option Nat :=
  match assocGet stats uri with
  | none => none
  | some st =>
      match st.ranges.findIdx? (fun c => c == range) with
      | none => none
      | some i => some (i + 1)

/-- The target-index computation of `navigateToMatch` (extension.ts
lines 476-481), for `n` matches.  JavaScript number arithmetic in
`(currentIndex - 1 + matches.length) % matches.length` is embedded over
`Int`. -/
def navigateTargetIndex (n : Nat) (currentIndex : Option Nat) :
    NavigationDirection → Nat
  | NavigationDirection.next =>
      match currentIndex with
      | none => 0
      | some c => (c + 1) % n
  | NavigationDirection.previous =>
      match currentIndex with
      | none => n - 1
      | some c => (((c : Int) - 1 + n) % (n : Int)).toNat

/-- Out-of-range placeholder for list indexing (the source indexes
`matches[targetIndex]` which is always in range; see
`navigateTargetIndex_lt`). -/
def defaultMatch : String × VsRange := ("", ⟨⟨0, 0⟩, ⟨0, 0⟩⟩)

/-- Embeds `navigateToMatch` (extension.ts lines 432-496): fails with
the "no matches" message when the global ordering is empty, otherwise
selects the target by `navigateTargetIndex`, records the target's local
index as the document's current match index and caches the new 1-based
global index. -/
def navigateToMatch (s : NavState) (currentIndex : Option Nat)
    (dir : NavigationDirection) : NavOutcome × NavState :=
  let ms := getOrderedMatches s.statsByDocument
  if ms.length = 0 then (NavOutcome.noMatches, s)
  else
    let targetIndex := navigateTargetIndex ms.length currentIndex dir
    let target := ms.getD targetIndex defaultMatch
    let localIndex := getLocalIndexForMatch s.statsByDocument target.1 target.2
    let st := (assocGet s.statsByDocument target.1).getD ⟨0, none, []⟩
    let stats2 := assocSet s.statsByDocument target.1
        { st with currentMatchIndex := localIndex }
    (NavOutcome.navigated target.1 target.2, ⟨stats2, some (targetIndex + 1)⟩)

theorem navigateTargetIndex_lt (n : Nat) (hn : 0 < n) (cur : Option Nat)
    (dir : NavigationDirection) : navigateTargetIndex n cur dir < n := by
  cases dir with
  | next =>
      cases cur with
      | none => simpa [navigateTargetIndex] using hn
      | some c =>
          simp only [navigateTargetIndex]
          exact Nat.mod_lt _ hn
  | previous =>
      cases cur with
      | none =>
          simp only [navigateTargetIndex]
          omega
      | some c =>
          simp only [navigateTargetIndex]
          have hpos : (0 : Int) < (n : Int) := by exact_mod_cast hn
          have h1 := Int.emod_nonneg ((c : Int) - 1 + n) (by omega : (n : Int) ≠ 0)
          have h2 := Int.emod_lt_of_pos ((c : Int) - 1 + n) hpos
          omega

/-- C3: with `n > 0` total matches, the navigation target index is
`(current + 1) mod n` for "next" and `(current - 1 + n) mod n` for
"previous"; with no current index, "next" targets the first match
(index 0) and "previous" the last (index `n - 1`); the target index is
always in range, the outcome is navigation to that element of the
global ordering, and the new cached global index is `target + 1`.
With `n = 0` navigation reports "no matches" and leaves the state
unchanged. -/
theorem navigateToMatch_spec (s : NavState) (n : Nat)
    (hn : (getOrderedMatches s.statsByDocument).length = n) :
    (n = 0 → ∀ cur dir, navigateToMatch s cur dir = (NavOutcome.noMatches, s))
    ∧ (0 < n →
        (∀ c, navigateTargetIndex n (some c) NavigationDirection.next = (c + 1) % n
          ∧ navigateTargetIndex n (some c) NavigationDirection.previous =
              (((c : Int) - 1 + n) % (n : Int)).toNat)
        ∧ navigateTargetIndex n none NavigationDirection.next = 0
        ∧ navigateTargetIndex n none NavigationDirection.previous = n - 1
        ∧ (∀ cur dir, navigateTargetIndex n cur dir < n))
    ∧ (0 < n → ∀ cur dir,
        (navigateToMatch s cur dir).1 =
          NavOutcome.navigated
            ((getOrderedMatches s.statsByDocument).getD
              (navigateTargetIndex n cur dir) defaultMatch).1
            ((getOrderedMatches s.statsByDocument).getD
              (navigateTargetIndex n cur dir) defaultMatch).2
        ∧ (navigateToMatch s cur dir).2.globalMatchIndex =
            some (navigateTargetIndex n cur dir + 1)) := by
  subst hn
  refine ⟨?_, ?_, ?_⟩
  · intro h0 cur dir
    simp [navigateToMatch, h0]
  · intro hpos
    exact ⟨fun c => ⟨rfl, rfl⟩, rfl, rfl,
      fun cur dir => navigateTargetIndex_lt _ hpos cur dir⟩
  · intro hpos cur dir
    have hne : ¬ ((getOrderedMatches s.statsByDocument).length = 0) := by omega
    constructor <;> simp [navigateToMatch, hne]

/-- Witness for C3 on a three-match state (2 matches in document `a`,
1 in document `b`). -/
theorem navigateToMatch_spec_witness :
    navigateTargetIndex 3 (some 2) NavigationDirection.next = (2 + 1) % 3
    ∧ navigateTargetIndex 3 none NavigationDirection.previous = 3 - 1 := by
  have h := (navigateToMatch_spec
      ⟨[("a", ⟨2, none, [⟨⟨0, 0⟩, ⟨0, 1⟩⟩, ⟨⟨1, 0⟩, ⟨1, 1⟩⟩]⟩),
        ("b", ⟨1, none, [⟨⟨0, 2⟩, ⟨0, 3⟩⟩]⟩)], none⟩ 3 (by decide)).2.1 (by decide)
  exact ⟨(h.1 2).1, h.2.2.1⟩

/-!
## Rules and option toggling (`toggleRuleOption`, lines 349-372)

`new RegExp(source, flags)` success is host regular-expression
compilation; it is embedded as an abstract predicate
`compiles : String → Bool` over the source string (the `g`/`i` flags do
not affect compilability).  The decoration resource and live caches are
not persisted fields and are not part of the rollback claim.
-/

/-- Embeds the persisted fields of `HighlightRule` (extension.ts
lines 20-34). -/
structure HighlightRule where
  id : String
  pattern : String
  color : String
  matchCase : Bool
  matchWholeWord : Bool
  useRegex : Bool
  scope : RuleScope
  targetUri : String
  fileFilter : Option String
deriving DecidableEq, Repr

/-- Reads `rule[option]`. -/
def getRuleOption (r : HighlightRule) : RuleOptionKey → Bool
  | RuleOptionKey.matchCase => r.matchCase
  | RuleOptionKey.matchWholeWord => r.matchWholeWord
  | RuleOptionKey.useRegex => r.useRegex

/-- Writes `rule[option] = v`. -/
def setRuleOption (r : HighlightRule) : RuleOptionKey → Bool → HighlightRule
  | RuleOptionKey.matchCase, v => { r with matchCase := v }
  | RuleOptionKey.matchWholeWord, v => { r with matchWholeWord := v }
  | RuleOptionKey.useRegex, v => { r with useRegex := v }

/-- The regex metacharacters escaped by `escapeForRegExp`
(extension.ts line 1502). -/
def regexSpecialChars : List Char :=
  ['.', '*', '+', '?', '^', '$', '{', '}', '(', ')', '|', '[', ']', '\\']

/-- Embeds `escapeForRegExp`: prefixes every regex metacharacter with a
backslash. -/
def escapeForRegExp (s : String) : String :=
  String.mk (s.data.flatMap
    (fun c => if regexSpecialChars.contains c then ['\\', c] else [c]))

/-- The source string handed to `new RegExp` by `buildRegExp`
(extension.ts lines 860-867): the raw pattern under `useRegex`, the
escaped pattern otherwise. -/
def buildRegExpSource (r : HighlightRule) : String :=
  if r.useRegex then r.pattern else escapeForRegExp r.pattern

/-- Embeds `toggleRuleOption` (extension.ts lines 349-372): flips the
option, revalidates by compiling when the rule is now in regex mode,
and on compilation failure restores the option and reports the error
message (`some message`); otherwise commits (`none` message). -/
def toggleRuleOption (compiles : String → Bool) (r : HighlightRule)
    (opt : RuleOptionKey) : HighlightRule × Option String :=
  let toggled := setRuleOption r opt (! getRuleOption r opt)
  if toggled.useRegex then
    if compiles (buildRegExpSource toggled) then (toggled, none)
    else (r, some "Invalid regular expression")
  else (toggled, none)

/-- C4: when a toggle makes the rule's current pattern fail to compile
(the toggled rule is in regex mode and its pattern source does not
compile), `toggleRuleOption` reports an error and leaves the rule
completely unchanged: the toggled option is restored and the pattern
and every other persisted field keep their prior values. -/
theorem toggleRuleOption_rollback (compiles : String → Bool)
    (r : HighlightRule) (opt : RuleOptionKey)
    (hregex : (setRuleOption r opt (! getRuleOption r opt)).useRegex = true)
    (hfail : compiles
      (buildRegExpSource (setRuleOption r opt (! getRuleOption r opt))) = false) :
    (toggleRuleOption compiles r opt).1 = r
    ∧ getRuleOption (toggleRuleOption compiles r opt).1 opt = getRuleOption r opt
    ∧ (toggleRuleOption compiles r opt).1.pattern = r.pattern
    ∧ (toggleRuleOption compiles r opt).1.useRegex = r.useRegex
    ∧ (toggleRuleOption compiles r opt).2.isSome = true := by
  have hstep : toggleRuleOption compiles r opt =
      (r, some "Invalid regular expression") := by
    simp [toggleRuleOption, hregex, hfail]
  rw [hstep]
  exact ⟨rfl, rfl, rfl, rfl, rfl⟩

/-- Witness for C4: the spec scenario — pattern `(`, `useRegex = false`,
toggling `useRegex`, under a compiler that rejects the bare `(`. -/
theorem toggleRuleOption_rollback_witness :
    (toggleRuleOption (fun src => ! (src == "("))
        ⟨"id1", "(", "#00c4ff55", false, false, false,
          RuleScope.document, "file:///a.txt", none⟩
        RuleOptionKey.useRegex).1 =
      ⟨"id1", "(", "#00c4ff55", false, false, false,
        RuleScope.document, "file:///a.txt", none⟩ :=
  (toggleRuleOption_rollback (fun src => ! (src == "("))
    ⟨"id1", "(", "#00c4ff55", false, false, false,
      RuleScope.document, "file:///a.txt", none⟩
    RuleOptionKey.useRegex (by decide) (by decide)).1

/-!
## Rule store (`removeRuleByInstance` lines 647-678, `moveRuleToScope`
lines 603-633)

`rulesByScope : Map<string, HighlightRule[]>` is embedded as an
association list from scope keys to rule lists.
-/

/-- The scope-key map of the store. -/
abbrev ScopeMap := List (String × List HighlightRule)

/-- TypeScript template-string rendering of a `RuleScope` value. -/
def scopeName : RuleScope → String
  | RuleScope.document => "document"
  | RuleScope.folder => "folder"
  | RuleScope.folderRecursive => "folderRecursive"

/-- Embeds `createScopeKey` (extension.ts lines 1104-1106). -/
def createScopeKey (scope : RuleScope) (targetUri : String) : String :=
  scopeName scope ++ ":" ++ targetUri

/-- Embeds `removeRuleByInstance` (extension.ts lines 647-678): removes
the rule from its scope bucket, deleting the bucket key when it becomes
empty; returns whether a rule was removed. -/
def removeRuleByInstance (m : ScopeMap) (r : HighlightRule) : ScopeMap × Bool :=
  let key := createScopeKey r.scope r.targetUri
  match assocGet m key with
  | none => (m, false)
  | some rules =>
      match rules.findIdx? (fun c => c.id == r.id) with
      | none => (m, false)
      | some i =>
          let rules2 := rules.eraseIdx i
          let m2 := assocSet m key rules2
          let m3 := if rules2.isEmpty then assocDelete m2 key else m2
          (m3, true)

/-- Embeds `moveRuleToScope` (extension.ts lines 603-633): removes the
rule from its previous bucket (deleting the bucket when it becomes
empty), rewrites the rule's scope fields, and appends it to the bucket
of the new scope key. -/
def moveRuleToScope (m : ScopeMap) (r : HighlightRule) (scope : RuleScope)
    (targetUri : String) : ScopeMap × HighlightRule :=
  let previousKey := createScopeKey r.scope r.targetUri
  let m1 :=
    match assocGet m previousKey with
    | none => m
    | some previousRules =>
        let pruned :=
          match previousRules.findIdx? (fun c => c.id == r.id) with
          | none => previousRules
          | some i => previousRules.eraseIdx i
        let m2 := assocSet m previousKey pruned
        if pruned.isEmpty then assocDelete m2 previousKey else m2
  let r2 := { r with scope := scope, targetUri := targetUri }
  let nextKey := createScopeKey scope targetUri
  let nextRules := (assocGet m1 nextKey).getD []
  (assocSet m1 nextKey (nextRules ++ [r2]), r2)

theorem mem_assocSet {α : Type} {m : List (String × α)} {k : String} {v : α}
    {e : String × α} (h : e ∈ assocSet m k v) : e = (k, v) ∨ e ∈ m := by
  induction m with
  | nil => simpa [assocSet] using h
  | cons x rest ih =>
      by_cases hx : x.1 = k
      · simp only [assocSet, if_pos hx, List.mem_cons] at h
        rcases h with h | h
        · exact Or.inl h
        · exact Or.inr (List.mem_cons_of_mem _ h)
      · simp only [assocSet, if_neg hx, List.mem_cons] at h
        rcases h with h | h
        · exact Or.inr (List.mem_cons.mpr (Or.inl h))
        · rcases ih h with h2 | h2
          · exact Or.inl h2
          · exact Or.inr (List.mem_cons_of_mem _ h2)

theorem mem_assocDelete {α : Type} {m : List (String × α)} {k : String}
    {e : String × α} (h : e ∈ assocDelete m k) : e ∈ m ∧ e.1 ≠ k := by
  unfold assocDelete at h
  rw [List.mem_filter] at h
  refine ⟨h.1, ?_⟩
  simpa using h.2

theorem noEmpty_assocGet (m : ScopeMap) (hinv : ∀ e ∈ m, e.2 ≠ [])
    (k : String) : assocGet m k ≠ some [] := by
  unfold assocGet
  intro h
  rcases Option.map_eq_some'.mp h with ⟨e, hfind, hsnd⟩
  exact hinv e (List.mem_of_find?_eq_some hfind) hsnd

theorem noEmpty_pruneBucket (m : ScopeMap) (key : String)
    (pruned : List HighlightRule) (hinv : ∀ e ∈ m, e.2 ≠ []) :
    ∀ e ∈ (if pruned.isEmpty then assocDelete (assocSet m key pruned) key
            else assocSet m key pruned), e.2 ≠ [] := by
  by_cases hemp : pruned.isEmpty
  · rw [if_pos hemp]
    intro e he
    obtain ⟨he2, hne⟩ := mem_assocDelete he
    rcases mem_assocSet he2 with h | h
    · exact absurd (congrArg Prod.fst h) hne
    · exact hinv e h
  · rw [if_neg hemp]
    intro e he
    rcases mem_assocSet he with h | h
    · rw [h]
      simpa [List.isEmpty_iff] using hemp
    · exact hinv e h

theorem noEmpty_appendBucket (m : ScopeMap) (key : String)
    (v : List HighlightRule) (hv : v ≠ []) (hinv : ∀ e ∈ m, e.2 ≠ []) :
    ∀ e ∈ assocSet m key v, e.2 ≠ [] := by
  intro e he
  rcases mem_assocSet he with h | h
  · rw [h]
    simpa using hv
  · exact hinv e h

theorem append_singleton_ne_nil {α : Type} (l : List α) (x : α) :
    l ++ [x] ≠ [] := by
  simp

theorem removeRule_noEmpty (m : ScopeMap) (r : HighlightRule)
    (hinv : ∀ e ∈ m, e.2 ≠ []) :
    ∀ e ∈ (removeRuleByInstance m r).1, e.2 ≠ [] := by
  simp only [removeRuleByInstance]
  split
  · exact hinv
  · split
    · exact hinv
    · exact noEmpty_pruneBucket m (createScopeKey r.scope r.targetUri) _ hinv

theorem moveRule_noEmpty (m : ScopeMap) (r : HighlightRule)
    (scope : RuleScope) (targetUri : String) (hinv : ∀ e ∈ m, e.2 ≠ []) :
    ∀ e ∈ (moveRuleToScope m r scope targetUri).1, e.2 ≠ [] := by
  simp only [moveRuleToScope]
  split
  · exact noEmpty_appendBucket _ _ _ (append_singleton_ne_nil _ _) hinv
  · exact noEmpty_appendBucket _ _ _ (append_singleton_ne_nil _ _)
      (noEmpty_pruneBucket m (createScopeKey r.scope r.targetUri) _ hinv)

/-- C5: the store never retains an empty scope bucket.  Starting from
any store whose buckets are all nonempty, both `removeRuleByInstance`
and `moveRuleToScope` preserve that invariant, and in the resulting
store no key is mapped to an empty collection — a bucket emptied by the
removal has its key absent. -/
theorem store_bucket_cleanliness (m : ScopeMap) (r : HighlightRule)
    (hinv : ∀ e ∈ m, e.2 ≠ []) :
    (∀ e ∈ (removeRuleByInstance m r).1, e.2 ≠ [])
    ∧ (∀ (scope : RuleScope) (targetUri : String),
        ∀ e ∈ (moveRuleToScope m r scope targetUri).1, e.2 ≠ [])
    ∧ (∀ k, assocGet (removeRuleByInstance m r).1 k ≠ some [])
    ∧ (∀ (scope : RuleScope) (targetUri : String) (k : String),
        assocGet (moveRuleToScope m r scope targetUri).1 k ≠ some []) :=
  ⟨removeRule_noEmpty m r hinv,
   fun scope t => moveRule_noEmpty m r scope t hinv,
   fun k => noEmpty_assocGet _ (removeRule_noEmpty m r hinv) k,
   fun scope t k => noEmpty_assocGet _ (moveRule_noEmpty m r scope t hinv) k⟩

/-- Witness for C5: removing the only rule of a bucket leaves no key
mapped to an empty collection. -/
theorem store_bucket_cleanliness_witness :
    assocGet (removeRuleByInstance
        [(createScopeKey RuleScope.document "file:///a.txt",
          [⟨"id1", "cat", "#00c4ff55", false, false, false,
            RuleScope.document, "file:///a.txt", none⟩])]
        ⟨"id1", "cat", "#00c4ff55", false, false, false,
          RuleScope.document, "file:///a.txt", none⟩).1
      (createScopeKey RuleScope.document "file:///a.txt") ≠ some [] :=
  (store_bucket_cleanliness
    [(createScopeKey RuleScope.document "file:///a.txt",
      [⟨"id1", "cat", "#00c4ff55", false, false, false,
        RuleScope.document, "file:///a.txt", none⟩])]
    ⟨"id1", "cat", "#00c4ff55", false, false, false,
      RuleScope.document, "file:///a.txt", none⟩
    (by decide)).2.2.1 (createScopeKey RuleScope.document "file:///a.txt")

/-!
## Match engine (`findMatches` lines 800-822, `matchesWordSeparators`
lines 1514-1528, `isWordCharacter` lines 1530-1538)

Text is embedded as `List Char` and ranges as `[start, end)` offset
pairs (`document.positionAt` / `offsetAt` are the host's order-preserving
offset-position conversions).  The compiled JavaScript `RegExp` with the
`g` flag is embedded as an abstract `execFrom` function returning the
first match at or after the scan cursor, bundled with the two
guarantees `RegExp.prototype.exec` provides for a global regex: the
match begins at or after `lastIndex` and lies within the text.  The
separator-character fallback whole-word policy (`isWholeWordMatch` with
no language word pattern) is embedded directly.
-/

/-- Abstract compiled matcher: `execFrom text i` embeds one
`regex.exec(text)` call with `lastIndex = i`, returning the match start
offset and length. -/
structure CompiledMatcher where
  execFrom : List Char → Nat → Option (Nat × Nat)
  start_ge : ∀ t i j len, execFrom t i = some (j, len) → i ≤ j
  within : ∀ t i j len, execFrom t i = some (j, len) → j + len ≤ t.length

/-- Embeds `isWordCharacter` (extension.ts lines 1530-1538): the empty
lookup (embedded as `none`) and whitespace are non-word; otherwise a
character is a word character exactly when it is not a configured
separator. -/
def isWordCharacter (c : Option Char) (separators : List Char) : Bool :=
  match c with
  | none => false
  | some ch => if ch.isWhitespace then false else ! separators.contains ch

/-- Embeds `matchesWordSeparators` (extension.ts lines 1514-1528): the
characters immediately before the start offset and at the end offset
(absent at the text boundaries) must both be non-word. -/
def matchesWordSeparators (separators : List Char) (text : List Char)
    (startOffset endOffset : Nat) : Bool :=
  let beforeChar := if 0 < startOffset then text[startOffset - 1]? else none
  let afterChar := if endOffset < text.length then text[endOffset]? else none
  ! isWordCharacter beforeChar separators && ! isWordCharacter afterChar separators

/-- Embeds the `while ((match = regex.exec(text)) !== null)` loop of
`findMatches` (extension.ts lines 800-822) from scan cursor `pos`:
a zero-width match advances the cursor by one without emitting a range;
a whole-word-filtered match is skipped; otherwise the `[start, end)`
offset pair is emitted and the cursor moves to the match end. -/
def findMatchesFrom (m : CompiledMatcher) (matchWholeWord : Bool)
    (separators : List Char) (text : List Char) (pos : Nat) : List (Nat × Nat) :=
  match hm : m.execFrom text pos with
  | none => []
  | some (j, len) =>
      if hlen : len = 0 then
        findMatchesFrom m matchWholeWord separators text (j + 1)
      else
        let rest := findMatchesFrom m matchWholeWord separators text (j + len)
        if matchWholeWord && ! matchesWordSeparators separators text j (j + len) then
          rest
        else (j, j + len) :: rest
termination_by text.length + 1 - pos
decreasing_by
  · have h1 := m.start_ge text pos j len hm
    have h2 := m.within text pos j len hm
    omega
  · have h1 := m.start_ge text pos j len hm
    have h2 := m.within text pos j len hm
    omega

/-- Embeds `findMatches`: the scan starts at cursor `0`. -/
def findMatches (m : CompiledMatcher) (matchWholeWord : Bool)
    (separators : List Char) (text : List Char) : List (Nat × Nat) :=
  findMatchesFrom m matchWholeWord separators text 0

/-- The default separator set of the source
(`defaultWordSeparators`, extension.ts line 98). -/
def defaultWordSeparators : List Char :=
  ['~', '!', '@', '#', '$', '%', '^', '&', '*', '(', ')', '-', '=', '+',
   '[', '{', ']', '}', '\\', '|', ';', ':', '\'', '"', ',', '.', '<', '>',
   '/', '?']

theorem findMatchesFrom_bound (m : CompiledMatcher) (ww : Bool)
    (seps : List Char) (text : List Char) :
    ∀ k pos, text.length + 1 - pos = k →
      ∀ p ∈ findMatchesFrom m ww seps text pos, pos ≤ p.1 ∧ p.1 < p.2 := by
  intro k
  induction k using Nat.strong_induction_on with
  | _ k ih =>
      intro pos hk p hp
      unfold findMatchesFrom at hp
      split at hp
      · simp at hp
      · rename_i j len heq
        have h1 := m.start_ge text pos j len heq
        have h2 := m.within text pos j len heq
        split at hp
        · rename_i hlen
          have := ih (text.length + 1 - (j + 1)) (by omega) (j + 1) rfl p hp
          omega
        · rename_i hlen
          split at hp
          · have := ih (text.length + 1 - (j + len)) (by omega) (j + len) rfl p hp
            omega
          · rcases List.mem_cons.mp hp with hph | hph
            · subst hph
              simp only
              omega
            · have := ih (text.length + 1 - (j + len)) (by omega) (j + len) rfl p hph
              omega

theorem findMatchesFrom_pairwise (m : CompiledMatcher) (ww : Bool)
    (seps : List Char) (text : List Char) :
    ∀ k pos, text.length + 1 - pos = k →
      List.Pairwise (fun p q : Nat × Nat => p.2 ≤ q.1)
        (findMatchesFrom m ww seps text pos) := by
  intro k
  induction k using Nat.strong_induction_on with
  | _ k ih =>
      intro pos hk
      unfold findMatchesFrom
      split
      · exact List.Pairwise.nil
      · rename_i j len heq
        have h1 := m.start_ge text pos j len heq
        have h2 := m.within text pos j len heq
        split
        · rename_i hlen
          exact ih (text.length + 1 - (j + 1)) (by omega) (j + 1) rfl
        · rename_i hlen
          split
          · exact ih (text.length + 1 - (j + len)) (by omega) (j + len) rfl
          · refine List.Pairwise.cons ?_
              (ih (text.length + 1 - (j + len)) (by omega) (j + len) rfl)
            intro q hq
            have := findMatchesFrom_bound m ww seps text
              (text.length + 1 - (j + len)) (j + len) rfl q hq
            simp only
            omega

theorem findMatchesFrom_wholeWord (m : CompiledMatcher) (seps : List Char)
    (text : List Char) :
    ∀ k pos, text.length + 1 - pos = k →
      ∀ p ∈ findMatchesFrom m true seps text pos,
        matchesWordSeparators seps text p.1 p.2 = true := by
  intro k
  induction k using Nat.strong_induction_on with
  | _ k ih =>
      intro pos hk p hp
      unfold findMatchesFrom at hp
      split at hp
      · simp at hp
      · rename_i j len heq
        have h1 := m.start_ge text pos j len heq
        have h2 := m.within text pos j len heq
        split at hp
        · rename_i hlen
          exact ih (text.length + 1 - (j + 1)) (by omega) (j + 1) rfl p hp
        · rename_i hlen
          split at hp
          · exact ih (text.length + 1 - (j + len)) (by omega) (j + len) rfl p hp
          · rename_i hcond
            rcases List.mem_cons.mp hp with hph | hph
            · subst hph
              simp only [Bool.true_and, Bool.not_eq_true'] at hcond
              have hmws : matchesWordSeparators seps text j (j + len) = true := by
                rcases Bool.eq_false_or_eq_true
                    (matchesWordSeparators seps text j (j + len)) with hb | hb
                · exact hb
                · exact absurd hb hcond
              simpa using hmws
            · exact ih (text.length + 1 - (j + len)) (by omega) (j + len) rfl p hph

/-- C7: `findMatches` terminates on every text and every compiled
matcher, including matchers that can produce zero-width matches — the
embedding is a total function whose recursion measure is the remaining
text length, and a zero-width match at `j` continues scanning from
`j + 1` without emitting a range.  Consequently every emitted range is
non-empty, and the scan proceeds left to right (consecutive ranges are
strictly ordered, each starting at or after the previous end). -/
theorem findMatches_spec (m : CompiledMatcher) (ww : Bool)
    (seps : List Char) (text : List Char) :
    (∀ p ∈ findMatches m ww seps text, p.1 < p.2)
    ∧ List.Pairwise (fun p q : Nat × Nat => p.2 ≤ q.1) (findMatches m ww seps text)
    ∧ (∀ pos j, m.execFrom text pos = some (j, 0) →
        findMatchesFrom m ww seps text pos =
          findMatchesFrom m ww seps text (j + 1)) := by
  refine ⟨?_, ?_, ?_⟩
  · intro p hp
    exact (findMatchesFrom_bound m ww seps text (text.length + 1) 0 rfl p hp).2
  · exact findMatchesFrom_pairwise m ww seps text (text.length + 1) 0 rfl
  · intro pos j hm
    conv =>
      lhs
      unfold findMatchesFrom
    split
    · rename_i heq
      rw [hm] at heq
      exact absurd heq (by simp)
    · rename_i j2 len2 heq
      rw [hm] at heq
      have hj : j2 = j ∧ len2 = 0 := by
        have := Option.some.inj heq
        exact ⟨(Prod.ext_iff.mp this).1.symm, (Prod.ext_iff.mp this).2.symm⟩
      rcases hj with ⟨rfl, rfl⟩
      simp

/-- C6: with `wholeWord` enabled under the separator-character fallback
policy, every range kept by `findMatches` has a non-word character (a
whitespace or configured separator character, or the text boundary,
embedded as `none`) both immediately before its start and immediately
after its end. -/
theorem findMatches_wholeWord_boundary (m : CompiledMatcher)
    (seps : List Char) (text : List Char) (p : Nat × Nat)
    (hp : p ∈ findMatches m true seps text) :
    isWordCharacter (if 0 < p.1 then text[p.1 - 1]? else none) seps = false
    ∧ isWordCharacter (if p.2 < text.length then text[p.2]? else none) seps = false := by
  have h := findMatchesFrom_wholeWord m seps text (text.length + 1) 0 rfl p hp
  unfold matchesWordSeparators at h
  simp only [Bool.and_eq_true, Bool.not_eq_true'] at h
  exact h

/-- A concrete matcher matching exactly the single-character range
`[0, 1)` when scanning starts at 0 on a nonempty text. -/
def oneShotExec (t : List Char) (i : Nat) : Option (Nat × Nat) :=
  if i = 0 ∧ 1 ≤ t.length then some (0, 1) else none

/-- The `oneShotExec` matcher bundled with its scan guarantees. -/
def oneShotMatcher : CompiledMatcher where
  execFrom := oneShotExec
  start_ge := by
    intro t i j len h
    unfold oneShotExec at h
    split at h
    · rename_i hcond
      simp only [Option.some.injEq, Prod.mk.injEq] at h
      omega
    · simp at h
  within := by
    intro t i j len h
    unfold oneShotExec at h
    split at h
    · rename_i hcond
      simp only [Option.some.injEq, Prod.mk.injEq] at h
      omega
    · simp at h

/-- A concrete matcher producing a zero-width match at every cursor
position, like the pattern `a*` on a text without `a`. -/
def zeroWidthExec (t : List Char) (i : Nat) : Option (Nat × Nat) :=
  if i ≤ t.length then some (i, 0) else none

/-- The `zeroWidthExec` matcher bundled with its scan guarantees. -/
def zeroWidthMatcher : CompiledMatcher where
  execFrom := zeroWidthExec
  start_ge := by
    intro t i j len h
    unfold zeroWidthExec at h
    split at h
    · simp only [Option.some.injEq, Prod.mk.injEq] at h
      omega
    · simp at h
  within := by
    intro t i j len h
    unfold zeroWidthExec at h
    split at h
    · rename_i hcond
      simp only [Option.some.injEq, Prod.mk.injEq] at h
      omega
    · simp at h

theorem findMatchesFrom_oneShot_tail (ww : Bool) :
    findMatchesFrom oneShotMatcher ww defaultWordSeparators ['c'] 1 = [] := by
  unfold findMatchesFrom
  split
  · rfl
  · rename_i j len heq
    simp [oneShotMatcher, oneShotExec] at heq

theorem findMatches_oneShot_eval (ww : Bool) :
    findMatches oneShotMatcher ww defaultWordSeparators ['c'] = [(0, 1)] := by
  unfold findMatches findMatchesFrom
  split
  · rename_i heq
    simp [oneShotMatcher, oneShotExec] at heq
  · rename_i j len heq
    simp [oneShotMatcher, oneShotExec] at heq
    obtain ⟨hj, hlen⟩ := heq
    subst hj
    subst hlen
    cases ww <;>
      simp [findMatchesFrom_oneShot_tail,
        show matchesWordSeparators defaultWordSeparators ['c'] 0 1 = true from by decide]

/-- Witness for C7: the one-shot matcher on text `c` emits the
non-empty range `[0, 1)`, and the zero-width matcher steps its cursor
from 0 to 1 without emitting. -/
theorem findMatches_spec_witness :
    ((0, 1) : Nat × Nat).1 < ((0, 1) : Nat × Nat).2
    ∧ findMatchesFrom zeroWidthMatcher false defaultWordSeparators ['a', 'b'] 0 =
        findMatchesFrom zeroWidthMatcher false defaultWordSeparators ['a', 'b'] (0 + 1) := by
  constructor
  · exact (findMatches_spec oneShotMatcher false defaultWordSeparators ['c']).1
      (0, 1) (by rw [findMatches_oneShot_eval]; simp)
  · exact (findMatches_spec zeroWidthMatcher false defaultWordSeparators ['a', 'b']).2.2
      0 0 (by simp [zeroWidthMatcher, zeroWidthExec])

/-- Witness for C6: the whole-word match `[0, 1)` on the text `c` is
bounded by the text boundary on both sides. -/
theorem findMatches_wholeWord_boundary_witness :
    isWordCharacter
        (if 0 < ((0, 1) : Nat × Nat).1 then (['c'] : List Char)[((0, 1) : Nat × Nat).1 - 1]? else none)
        defaultWordSeparators = false
    ∧ isWordCharacter
        (if ((0, 1) : Nat × Nat).2 < (['c'] : List Char).length
          then (['c'] : List Char)[((0, 1) : Nat × Nat).2]? else none)
        defaultWordSeparators = false :=
  findMatches_wholeWord_boundary oneShotMatcher defaultWordSeparators ['c'] (0, 1)
    (by rw [findMatches_oneShot_eval]; simp)

/-!
## Color parsing (`parseHexColor` lines 1727-1756,
`getReadableTextColor` lines 1706-1714)

`Number.parseInt(hex, 16)` is embedded faithfully: skip leading
whitespace, an optional sign, an optional `0x`/`0X` prefix, then the
longest prefix of hexadecimal digits — `NaN` (embedded as `none`) only
when that prefix is empty.  The bit extractions `(n >> 16) & 0xff` on a
32-bit value are floor division and a nonnegative remainder, which are
Lean's `Int` `/` and `%`.  The floating-point luminance is embedded
over `ℚ` (the literals 0.299, 0.587, 0.114 exactly). -/

/-- One JavaScript hexadecimal digit (radix-16 `parseInt` digit). -/
def isHexDigit (c : Char) : Bool :=
  ('0' ≤ c && c ≤ '9') || ('a' ≤ c && c ≤ 'f') || ('A' ≤ c && c ≤ 'F')

/-- Numeric value of a hexadecimal digit. -/
def hexDigitVal (c : Char) : Nat :=
  if '0' ≤ c && c ≤ '9' then c.toNat - 48
  else if 'a' ≤ c && c ≤ 'f' then c.toNat - 87
  else c.toNat - 55

/-- The longest hexadecimal-digit prefix interpreted as a number;
`none` when that prefix is empty (`parseInt` returns `NaN`). -/
def hexPrefixValue (l : List Char) : Option Nat :=
  let digits := l.takeWhile isHexDigit
  if digits.isEmpty then none
  else some (digits.foldl (fun acc c => acc * 16 + hexDigitVal c) 0)

/-- Embeds `Number.parseInt(s, 16)`: leading whitespace, optional sign,
optional `0x`/`0X` prefix, then the longest hexadecimal-digit prefix. -/
def parseIntHex (s : List Char) : Option Int :=
  let l1 := s.dropWhile Char.isWhitespace
  let sign : Int := if l1.head? = some '-' then -1 else 1
  let l2 := if l1.head? = some '-' ∨ l1.head? = some '+' then l1.tail else l1
  let l3 := if l2.take 2 = ['0', 'x'] ∨ l2.take 2 = ['0', 'X'] then l2.drop 2 else l2
  match hexPrefixValue l3 with
  | none => none
  | some v => some (sign * v)

/-- Embeds `String.prototype.trim`. -/
def trimChars (l : List Char) : List Char :=
  ((l.dropWhile Char.isWhitespace).reverse.dropWhile Char.isWhitespace).reverse

/-- The length dispatch of `parseHexColor`: 3- and 4-character inputs
have their first 3 characters doubled, 6- and 8-character inputs are
truncated to 6 (alpha ignored); every other length is rejected. -/
def expandHex (hexRest : List Char) : Option (List Char) :=
  if hexRest.length = 3 ∨ hexRest.length = 4 then
    some ((hexRest.take 3).flatMap (fun c => [c, c]))
  else if hexRest.length = 6 ∨ hexRest.length = 8 then some (hexRest.take 6)
  else none

/-- Parsed color components. -/
structure RGB where
  r : Nat
  g : Nat
  b : Nat
deriving DecidableEq, Repr

/-- Embeds `parseHexColor` (extension.ts lines 1727-1756): trim,
require a leading `#`, dispatch on the remaining length, parse with
`parseInt` semantics and extract the three components with
`(n >> 16) & 0xff`, `(n >> 8) & 0xff`, `n & 0xff`. -/
def parseHexColor (value : String) : Option RGB :=
  let trimmed := trimChars value.data
  if trimmed.head? = some '#' then
    match expandHex trimmed.tail with
    | none => none
    | some hex =>
        match parseIntHex hex with
        | none => none
        | some numeric =>
            some ⟨((numeric / 65536) % 256).toNat, ((numeric / 256) % 256).toNat,
              (numeric % 256).toNat⟩
  else none

/-- Embeds `getReadableTextColor` (extension.ts lines 1706-1714):
luminance `(0.299 r + 0.587 g + 0.114 b) / 255`, dark foreground
`#1f1f1f` above 0.6, light foreground `#ffffff` otherwise, no
foreground when the background cannot be parsed. -/
def getReadableTextColor (color : String) : Option String :=
  match parseHexColor color with
  | none => none
  | some rgb =>
      let luminance : ℚ :=
        (0.299 * (rgb.r : ℚ) + 0.587 * (rgb.g : ℚ) + 0.114 * (rgb.b : ℚ)) / 255
      some (if luminance > 0.6 then "#1f1f1f" else "#ffffff")

/-- Counterexample for C8: the claim says parsing accepts exactly the
forms `#RGB`, `#RGBA`, `#RRGGBB`, `#RRGGBBAA` and fails for any other
form, but `parseInt` hex semantics accept any string whose leading
characters are hexadecimal digits: `#1zzzzz` is none of those forms yet
parses to RGB (0,0,1) and produces a foreground. -/
theorem parseHexColor_counterexample :
    parseHexColor "#1zzzzz" = some ⟨0, 0, 1⟩
    ∧ getReadableTextColor "#1zzzzz" = some "#ffffff" := by
  have hp : parseHexColor "#1zzzzz" = some ⟨0, 0, 1⟩ := by decide
  refine ⟨hp, ?_⟩
  simp only [getReadableTextColor, hp]
  norm_num

theorem isHexDigit_not_whitespace (c : Char) (h : isHexDigit c = true) :
    c.isWhitespace = false := by
  rcases Bool.eq_false_or_eq_true c.isWhitespace with hw | hw
  · have hw2 : ((c = ' ' ∨ c = '\t') ∨ c = '\x0d') ∨ c = '\n' := by
      simpa [Char.isWhitespace] using hw
    rcases hw2 with ((rfl | rfl) | rfl) | rfl <;> exact absurd h (by decide)
  · exact hw

theorem isHexDigit_ne_marks (c : Char) (h : isHexDigit c = true) :
    c ≠ '-' ∧ c ≠ '+' := by
  constructor <;> intro hh <;> rw [hh] at h <;> exact absurd h (by decide)

theorem takeWhile_all {p : Char → Bool} (l : List Char)
    (h : ∀ c ∈ l, p c = true) : l.takeWhile p = l := by
  induction l with
  | nil => rfl
  | cons c rest ih =>
      rw [List.takeWhile_cons, if_pos (h c (by simp))]
      rw [ih (fun x hx => h x (List.mem_cons_of_mem _ hx))]

theorem parseIntHex_all_hex (l : List Char) (hne : l ≠ [])
    (hall : ∀ c ∈ l, isHexDigit c = true) :
    (parseIntHex l).isSome = true := by
  obtain ⟨c, rest, rfl⟩ := List.exists_cons_of_ne_nil hne
  have hc := hall c (by simp)
  have hws : ¬ (c.isWhitespace = true) := by
    rw [isHexDigit_not_whitespace c hc]
    simp
  have hdrop : (c :: rest).dropWhile Char.isWhitespace = c :: rest := by
    rw [List.dropWhile_cons, if_neg hws]
  have hmarks := isHexDigit_ne_marks c hc
  have h0x : ∀ d : Char, isHexDigit d = false → (c :: rest).take 2 ≠ ['0', d] := by
    intro d hd hh
    rw [List.take_succ_cons] at hh
    injection hh with h1 h2
    cases rest with
    | nil => simp at h2
    | cons e rest2 =>
        rw [List.take_succ_cons, List.take_zero] at h2
        injection h2 with h3 _
        have he := hall e (List.mem_cons_of_mem _ (by simp))
        rw [h3, hd] at he
        exact absurd he (by simp)
  have hpre : hexPrefixValue (c :: rest) =
      some ((c :: rest).foldl (fun acc ch => acc * 16 + hexDigitVal ch) 0) := by
    unfold hexPrefixValue
    rw [takeWhile_all _ hall]
    simp
  simp only [parseIntHex, hdrop]
  rw [if_neg (by simp [hmarks.1, hmarks.2] : ¬ ((c :: rest).head? = some '-' ∨
    (c :: rest).head? = some '+'))]
  rw [if_neg (by simp [hmarks.1] : ¬ ((c :: rest).head? = some '-'))]
  rw [if_neg]
  · rw [hpre]
    rfl
  · intro hor
    rcases hor with hh | hh
    · exact h0x 'x' (by decide) hh
    · exact h0x 'X' (by decide) hh

theorem expandHex_all_hex (hexRest : List Char)
    (hall : ∀ c ∈ hexRest, isHexDigit c = true)
    (hlen : hexRest.length = 3 ∨ hexRest.length = 4 ∨ hexRest.length = 6 ∨
      hexRest.length = 8) :
    ∃ hex, expandHex hexRest = some hex ∧ hex ≠ [] ∧
      ∀ c ∈ hex, isHexDigit c = true := by
  have hne : hexRest ≠ [] := by
    intro hnil
    rw [hnil] at hlen
    simp at hlen
  obtain ⟨a, l2, rfl⟩ := List.exists_cons_of_ne_nil hne
  unfold expandHex
  rcases hlen with hl | hl | hl | hl
  all_goals first
  | (rw [if_pos (by omega)]
     refine ⟨_, rfl, ?_, ?_⟩
     · rw [List.take_succ_cons, List.flatMap_cons]
       simp
     · intro x hx
       rw [List.mem_flatMap] at hx
       obtain ⟨d, hd, hxd⟩ := hx
       have hxd2 : x = d := by
         rcases List.mem_cons.mp hxd with hh | hh
         · exact hh
         · simpa using hh
       exact hxd2 ▸ hall d (List.mem_of_mem_take hd))
  | (rw [if_neg (by omega), if_pos (by omega)]
     refine ⟨_, rfl, ?_, ?_⟩
     · rw [List.take_succ_cons]
       simp
     · intro x hx
       exact hall x (List.mem_of_mem_take hx))

/-- C8 (amended): parsing requires a leading `#` after trimming and a
remaining length of 3, 4, 6 or 8 — other strings (named colors
included) and other lengths fail — and accepts every string of the
forms `#RGB`, `#RGBA`, `#RRGGBB`, `#RRGGBBAA` (alpha ignored); however
`parseInt` hex semantics also accept inputs of those lengths whose
leading characters are hex digits (e.g. `#1zzzzz`), rather than failing
as the claim states.  When parsing succeeds with `(r,g,b)` the readable
foreground is the dark color exactly when the luminance
`(0.299 r + 0.587 g + 0.114 b)/255` exceeds 0.6 and the light color
otherwise; no foreground is produced when parsing fails; `#00c4ff55`
parses to (0,196,255) with luminance below 0.6, yielding the light
foreground. -/
theorem getReadableTextColor_spec :
    (∀ v : String, (trimChars v.data).head? ≠ some '#' → parseHexColor v = none)
    ∧ (∀ (v : String) (hexRest : List Char), trimChars v.data = '#' :: hexRest →
        hexRest.length ≠ 3 → hexRest.length ≠ 4 → hexRest.length ≠ 6 →
        hexRest.length ≠ 8 → parseHexColor v = none)
    ∧ (∀ (v : String) (hexRest : List Char), trimChars v.data = '#' :: hexRest →
        (∀ c ∈ hexRest, isHexDigit c = true) →
        (hexRest.length = 3 ∨ hexRest.length = 4 ∨ hexRest.length = 6 ∨
          hexRest.length = 8) →
        (parseHexColor v).isSome = true)
    ∧ (∀ v : String, parseHexColor v = none → getReadableTextColor v = none)
    ∧ (∀ (v : String) (rgb : RGB), parseHexColor v = some rgb →
        getReadableTextColor v =
          some (if (0.299 * (rgb.r : ℚ) + 0.587 * (rgb.g : ℚ) +
              0.114 * (rgb.b : ℚ)) / 255 > 0.6 then "#1f1f1f" else "#ffffff"))
    ∧ (parseHexColor "#00c4ff55" = some ⟨0, 196, 255⟩
        ∧ getReadableTextColor "#00c4ff55" = some "#ffffff") := by
  refine ⟨?_, ?_, ?_, ?_, ?_, ?_, ?_⟩
  · intro v h
    simp only [parseHexColor]
    rw [if_neg h]
  · intro v hexRest htrim h3 h4 h6 h8
    simp only [parseHexColor, htrim, List.head?_cons, List.tail_cons]
    rw [if_pos trivial]
    unfold expandHex
    rw [if_neg (by omega), if_neg (by omega)]
  · intro v hexRest htrim hall hlen
    simp only [parseHexColor, htrim, List.head?_cons, List.tail_cons]
    rw [if_pos trivial]
    obtain ⟨hex, hexp, hne, hallhex⟩ := expandHex_all_hex hexRest hall hlen
    rw [hexp]
    have hps := parseIntHex_all_hex hex hne hallhex
    rcases Option.isSome_iff_exists.mp hps with ⟨n, hn⟩
    simp [hn]
  · intro v h
    simp only [getReadableTextColor, h]
  · intro v rgb h
    simp only [getReadableTextColor, h]
  · decide
  · have hp : parseHexColor "#00c4ff55" = some ⟨0, 196, 255⟩ := by decide
    simp only [getReadableTextColor, hp]
    norm_num

/-- Witness for C8 on the named color `red`: it fails to parse and
yields no foreground. -/
theorem getReadableTextColor_spec_witness :
    parseHexColor "red" = none ∧ getReadableTextColor "red" = none := by
  have h1 := getReadableTextColor_spec.1 "red" (by decide)
  exact ⟨h1, getReadableTextColor_spec.2.2.2.1 "red" h1⟩

/-!
## File-name filters (`createFilterMatchers` lines 1183-1202,
`globToRegExp` lines 1204-1212, `isFileIncluded` lines 1079-1085)

`new RegExp(source, 'i')` success in `globToRegExp` is embedded as the
abstract predicate `compiles : String → Bool` over the built source,
and `RegExp.prototype.test` as an abstract `test` function.
-/

/-- Splits a character list on `|`, embedding `String.prototype.split`
with separator `|`. -/
def splitPipe : List Char → List (List Char)
  | [] => [[]]
  | c :: rest =>
      if c = '|' then [] :: splitPipe rest
      else
        match splitPipe rest with
        | [] => [[c]]
        | g :: gs => (c :: g) :: gs

/-- The characters escaped by `globToRegExp`
(the class `[.+^${}()|[\]\\]`, extension.ts line 1205). -/
def globEscapeChars : List Char :=
  ['.', '+', '^', '$', '{', '}', '(', ')', '|', '[', ']', '\\']

/-- The regular-expression source built by `globToRegExp`: escape the
metacharacters, replace `*` by `.*` and `?` by `.`, and anchor with
`^`/`$`. -/
def globSourceOf (pattern : List Char) : String :=
  let escaped := pattern.flatMap
    (fun c => if globEscapeChars.contains c then ['\\', c] else [c])
  let replaced := escaped.flatMap
    (fun c => if c = '*' then ['.', '*'] else if c = '?' then ['.'] else [c])
  String.mk ('^' :: (replaced ++ ['$']))

/-- A compiled glob matcher (an opaque host regular expression,
identified by its source). -/
structure GlobRegex where
  source : String
deriving DecidableEq, Repr

/-- Embeds `globToRegExp` (extension.ts lines 1204-1212): `none` when
the built source does not compile. -/
def globToRegExp (compiles : String → Bool) (pattern : List Char) :
    Option GlobRegex :=
  if compiles (globSourceOf pattern) then some ⟨globSourceOf pattern⟩ else none

/-- The glob segments of a filter value: split on `|`, trimmed,
non-empty segments kept. -/
def filterPatterns (value : List Char) : List (List Char) :=
  ((splitPipe value).map trimChars).filter (fun p => ! p.isEmpty)

/-- Embeds `createFilterMatchers` (extension.ts lines 1183-1202):
`none` for a missing filter, for a filter with no non-empty segments,
and for a filter none of whose segments compile. -/
def createFilterMatchers (compiles : String → Bool) (value : Option String) :
    Option (List GlobRegex) :=
  match value with
  | none => none
  | some v =>
      let patterns := filterPatterns v.data
      if patterns.isEmpty then none
      else
        let matchers := patterns.filterMap (globToRegExp compiles)
        if matchers.isEmpty then none else some matchers

/-- Embeds `isFileIncluded` (extension.ts lines 1079-1085): a missing
or empty matcher list includes every file; otherwise some matcher must
accept the file name. -/
def isFileIncluded (test : GlobRegex → String → Bool)
    (filterMatchers : Option (List GlobRegex)) (fileName : String) : Bool :=
  match filterMatchers with
  | none => true
  | some ms => if ms.isEmpty then true else ms.any (fun m => test m fileName)

/-- C9: when every glob segment of a rule's filter fails to compile,
the constructed matcher list is absent (`none`) and the file-inclusion
test returns `true` for every file — the all-invalid filter behaves
exactly like having no filter at all. -/
theorem allInvalidFilter_spec (compiles : String → Bool)
    (test : GlobRegex → String → Bool) (v : String)
    (hall : ∀ p ∈ filterPatterns v.data, compiles (globSourceOf p) = false) :
    createFilterMatchers compiles (some v) = none
    ∧ ∀ fileName,
        isFileIncluded test (createFilterMatchers compiles (some v)) fileName = true := by
  have hnone : createFilterMatchers compiles (some v) = none := by
    simp only [createFilterMatchers]
    by_cases hemp : (filterPatterns v.data).isEmpty
    · rw [if_pos hemp]
    · rw [if_neg hemp]
      have hm : (filterPatterns v.data).filterMap (globToRegExp compiles) = [] := by
        rw [List.filterMap_eq_nil_iff]
        intro p hp
        simp [globToRegExp, hall p hp]
      rw [hm]
      simp
  exact ⟨hnone, fun fileName => by rw [hnone]; rfl⟩

/-- Witness for C9: a compiler rejecting every source turns the filter
`*.ts` into no filter, so `a.txt` is included. -/
theorem allInvalidFilter_spec_witness :
    createFilterMatchers (fun _ => false) (some "*.ts") = none
    ∧ isFileIncluded (fun _ _ => false)
        (createFilterMatchers (fun _ => false) (some "*.ts")) "a.txt" = true := by
  have h := allInvalidFilter_spec (fun _ => false) (fun _ _ => false) "*.ts"
      (fun p hp => rfl)
  exact ⟨h.1, h.2 "a.txt"⟩
